import Mathlib

/-!
# Verification of the ts-cache orchestration layer

Shallow embedding of the cache orchestrator (`src/unnamed/part_002`, class
`Cache`), the TTL resolver (`src/src/ttl.ts`), and the memory adapter with
disk-backed backup persistence (`src/src/adapters/memory.ts`), together with
a model of the JavaScript runtime's `JSON.stringify` / `JSON.parse` pair on
the JSON-representable value domain (the default serializer and deserializer
of the orchestrator delegate to these built-ins).

External collaborators (the `ms` duration-string parser, the `micromatch`
glob matcher, the injected TTL-aware map engine and the backend adapter) are
modelled as parameters, exactly as the spec designates them: opaque pure
capabilities.
-/

namespace TsCache

/-! ## JSON value model

The default serializer of the orchestrator is `JSON.stringify` and the default
deserializer is `JSON.parse` (`src/unnamed/part_002`, lines 477-483).  `Json`
is the JSON-representable fragment of JavaScript values: `null`, booleans,
integer-valued numbers, strings, arrays, and objects with fields in insertion
order.  (Non-integer doubles, `NaN`, `Infinity`, `undefined`, functions and
class instances are outside this domain; `JSON.stringify` does not round-trip
all of them, and floating point is out of scope of the embedding.) -/

inductive Json where
  | null
  | bool (b : Bool)
  | num (n : Int)
  | str (s : String)
  | arr (elems : List Json)
  | obj (fields : List (String × Json))

/-- Hexadecimal digit character, lowercase, as produced by `JSON.stringify`
for control-character escapes (`\u00XX`). -/
def hexDigit (n : Nat) : Char :=
  if n < 10 then Char.ofNat (48 + n) else Char.ofNat (87 + n)

/-- How `JSON.stringify` renders one character inside a string literal:
`"` and `\` are escaped, the five short control escapes are used where they
exist, all other control characters become `\u00XX`, and every other
character is emitted literally. -/
def escapeChar (c : Char) : List Char :=
  if c = '"' then ['\\', '"']
  else if c = '\\' then ['\\', '\\']
  else if c = '\x08' then ['\\', 'b']
  else if c = '\t' then ['\\', 't']
  else if c = '\n' then ['\\', 'n']
  else if c = '\x0c' then ['\\', 'f']
  else if c = '\r' then ['\\', 'r']
  else if c.toNat < 0x20 then
    ['\\', 'u', '0', '0', hexDigit (c.toNat / 16), hexDigit (c.toNat % 16)]
  else [c]

/-- `JSON.stringify` rendering of a string literal, quotes included. -/
def renderString (s : String) : List Char :=
  '"' :: (s.data.map escapeChar).flatten ++ ['"']

/-- Decimal digits of a natural number (`String(n)` for a non-negative
integer-valued JavaScript number). -/
def natChars (n : Nat) : List Char :=
  if n = 0 then ['0']
  else ((Nat.digits 10 n).reverse.map fun d => Char.ofNat (48 + d))

/-- `String(n)` for an integer-valued JavaScript number. -/
def intChars (n : Int) : List Char :=
  if n < 0 then '-' :: natChars n.natAbs else natChars n.natAbs

mutual

/-- `JSON.stringify` (no spacing argument): compact rendering, object fields
in insertion order. -/
def render : Json → List Char
  | .bool b => if b then ['t', 'r', 'u', 'e'] else ['f', 'a', 'l', 's', 'e']
  | .null => ['n', 'u', 'l', 'l']
  | .num n => intChars n
  | .str s => renderString s
  | .arr xs => '[' :: renderElems xs ++ [']']
  | .obj fs => '{' :: renderFields fs ++ ['}']

/-- Comma-separated rendering of array elements. -/
def renderElems : List Json → List Char
  | [] => []
  | [x] => render x
  | x :: y :: rest => render x ++ ',' :: renderElems (y :: rest)

/-- Comma-separated rendering of object members (`"key":value`). -/
def renderFields : List (String × Json) → List Char
  | [] => []
  | [(k, v)] => renderString k ++ ':' :: render v
  | (k, v) :: m :: rest =>
      renderString k ++ ':' :: render v ++ ',' :: renderFields (m :: rest)

end

/-- `JSON.stringify` on the JSON-representable domain, as a `String`. -/
def jsonStringify (v : Json) : String := ⟨render v⟩

/-! ## JSON parser (`JSON.parse`)

A recursive-descent parser for the JSON grammar over the `Json` domain.
Numbers are restricted to the integer fragment (matching the `Json` domain;
on inputs with fractional or exponent parts the model rejects where the
JavaScript built-in would produce a non-integer double — such inputs are
never produced by `render`).  The recursion is bounded by an explicit fuel
parameter; `jsonParse` supplies fuel that provably dominates the nesting
depth of any input it accepts. -/

/-- JSON insignificant whitespace. -/
def isJsonWs (c : Char) : Bool :=
  c = ' ' || c = '\t' || c = '\n' || c = '\r'

/-- Skip leading insignificant whitespace. -/
def skipWs : List Char → List Char
  | [] => []
  | c :: cs => if isJsonWs c then skipWs cs else c :: cs

/-- Numeric value of a hexadecimal digit character, upper or lower case. -/
def hexVal (c : Char) : Option Nat :=
  if '0' ≤ c ∧ c ≤ '9' then some (c.toNat - 48)
  else if 'a' ≤ c ∧ c ≤ 'f' then some (c.toNat - 87)
  else if 'A' ≤ c ∧ c ≤ 'F' then some (c.toNat - 55)
  else none

/-- The character produced by a single-character escape, if `e` is one. -/
def escCharFor (e : Char) : Option Char :=
  if e = '"' then some '"'
  else if e = '\\' then some '\\'
  else if e = '/' then some '/'
  else if e = 'b' then some '\x08'
  else if e = 'f' then some '\x0c'
  else if e = 'n' then some '\n'
  else if e = 'r' then some '\r'
  else if e = 't' then some '\t'
  else none

/-- Parse the body of a string literal after the opening quote: returns the
decoded characters and the input remaining after the closing quote. -/
def parseStringBody : List Char → Option (List Char × List Char)
  | [] => none
  | c :: rest =>
      if c = '"' then some ([], rest)
      else if c = '\\' then
        match rest with
        | 'u' :: h1 :: h2 :: h3 :: h4 :: r =>
            match hexVal h1, hexVal h2, hexVal h3, hexVal h4 with
            | some a, some b, some cc, some d =>
                (parseStringBody r).map fun (cs, r') =>
                  (Char.ofNat (((a * 16 + b) * 16 + cc) * 16 + d) :: cs, r')
            | _, _, _, _ => none
        | e :: r =>
            match escCharFor e with
            | some c' => (parseStringBody r).map fun (cs, r') => (c' :: cs, r')
            | none => none
        | [] => none
      else if c.toNat < 0x20 then none
      else (parseStringBody rest).map fun (cs, r) => (c :: cs, r)

/-- Digit character. -/
def isDigitChar (c : Char) : Bool := '0' ≤ c && c ≤ '9'

/-- Numeric value of a run of decimal digit characters. -/
def digitsVal (ds : List Char) : Nat :=
  ds.foldl (fun acc c => 10 * acc + (c.toNat - 48)) 0

/-- Parse a non-empty run of decimal digits. -/
def parseNat (cs : List Char) : Option (Nat × List Char) :=
  let ds := cs.takeWhile isDigitChar
  if ds.isEmpty then none else some (digitsVal ds, cs.dropWhile isDigitChar)

/-- Parse a JSON number (integer fragment: optional minus sign, digits). -/
def parseNumber : List Char → Option (Int × List Char)
  | [] => none
  | c :: rest =>
      if c = '-' then (parseNat rest).map fun (n, r) => (-(n : Int), r)
      else (parseNat (c :: rest)).map fun (n, r) => ((n : Int), r)

mutual

/-- Parse one JSON value (leading whitespace allowed); returns the value and
the input remaining immediately after it.  Values starting with `n`, `t` or
`f` must be the keywords `null`, `true`, `false`; anything that is not a
keyword, string, array or object is attempted as a number. -/
def parseVal : Nat → List Char → Option (Json × List Char)
  | 0, _ => none
  | fuel + 1, cs =>
      match skipWs cs with
      | [] => none
      | c :: rest =>
          if c = 'n' then
            match rest with
            | 'u' :: 'l' :: 'l' :: r => some (.null, r)
            | _ => none
          else if c = 't' then
            match rest with
            | 'r' :: 'u' :: 'e' :: r => some (.bool true, r)
            | _ => none
          else if c = 'f' then
            match rest with
            | 'a' :: 'l' :: 's' :: 'e' :: r => some (.bool false, r)
            | _ => none
          else if c = '"' then
            (parseStringBody rest).map fun (body, r) => (.str ⟨body⟩, r)
          else if c = '[' then
            match skipWs rest with
            | [] => none
            | c2 :: r2 =>
                if c2 = ']' then some (.arr [], r2)
                else (parseElems fuel (c2 :: r2)).map fun (xs, r) => (.arr xs, r)
          else if c = '{' then
            match skipWs rest with
            | [] => none
            | c2 :: r2 =>
                if c2 = '}' then some (.obj [], r2)
                else (parseFields fuel (c2 :: r2)).map fun (fs, r) => (.obj fs, r)
          else (parseNumber (c :: rest)).map fun (n, r) => (.num n, r)

/-- Parse the elements of a non-empty array, consuming the closing `]`. -/
def parseElems : Nat → List Char → Option (List Json × List Char)
  | 0, _ => none
  | fuel + 1, cs => do
      let (v, r1) ← parseVal fuel cs
      match skipWs r1 with
      | [] => none
      | c :: r2 =>
          if c = ',' then do
            let (xs, r3) ← parseElems fuel r2
            pure (v :: xs, r3)
          else if c = ']' then pure ([v], r2)
          else none

/-- Parse the members of a non-empty object, consuming the closing `}`. -/
def parseFields : Nat → List Char → Option (List (String × Json) × List Char)
  | 0, _ => none
  | fuel + 1, cs =>
      match skipWs cs with
      | [] => none
      | c :: r =>
          if c = '"' then do
            let (k, r1) ← parseStringBody r
            match skipWs r1 with
            | [] => none
            | c2 :: r2 =>
                if c2 = ':' then do
                  let (v, r3) ← parseVal fuel r2
                  match skipWs r3 with
                  | [] => none
                  | c3 :: r4 =>
                      if c3 = ',' then do
                        let (fs, r5) ← parseFields fuel r4
                        pure ((⟨k⟩, v) :: fs, r5)
                      else if c3 = '}' then pure ([(⟨k⟩, v)], r4)
                      else none
                else none
          else none

end

mutual

/-- Fuel that dominates the recursion depth needed to parse `render v`. -/
def fuelFor : Json → Nat
  | .null | .bool _ | .num _ | .str _ => 1
  | .arr xs => 1 + elemsFuel xs
  | .obj fs => 1 + fieldsFuel fs

/-- Fuel needed by `parseElems` on the rendered elements. -/
def elemsFuel : List Json → Nat
  | [] => 1
  | x :: rest => 1 + fuelFor x + elemsFuel rest

/-- Fuel needed by `parseFields` on the rendered members. -/
def fieldsFuel : List (String × Json) → Nat
  | [] => 1
  | (_, v) :: rest => 1 + fuelFor v + fieldsFuel rest

end

/-- `JSON.parse`: on success the whole input must be one JSON value framed
only by whitespace.  (On invalid input the built-in throws; the model
returns `none`.) -/
def jsonParse (s : String) : Option Json :=
  match parseVal (2 * s.data.length + 2) s.data with
  | some (v, rest) => if (skipWs rest).isEmpty then some v else none
  | none => none

/-! ## TTL resolver (`src/src/ttl.ts`) -/

/-- `TtlExpression<A>`: an absolute millisecond count, a duration string, or
a function of the call arguments returning another TTL expression
(`src/src/ttl.ts`, lines 5-8). -/
inductive TtlExpression (A : Type) where
  | lit (ms : Int)
  | dur (s : String)
  | fn (f : A → TtlExpression A)

/-- `ttlToMs` (`src/src/ttl.ts`, lines 10-24): recursively applies function
expressions to the call arguments, returns numbers as-is, and parses
duration strings with the external `ms` package, modelled by the `msParse`
parameter. -/
def ttlToMs {A : Type} (msParse : String → Int) : TtlExpression A → A → Int
  | .fn f, a => ttlToMs msParse (f a) a
  | .lit n, _ => n
  | .dur s, _ => msParse s

/-! ## Cache orchestrator (`src/unnamed/part_002`, class `Cache`)

The orchestrator is parametric in the injected pieces: the namespace string
(`ns`), the configured serializer/deserializer (`V`-valued, `(value, key)` /
`(raw, key)` as in the source), the adapter's backend contents (a function
from storage key to the stored string, answering the batched get), and the
`ms` parser.  Each operation returns a run record carrying its result, the
adapter calls it issued, the producer invocations, and the `read` events it
emitted, in order. -/

/-- `CacheOperation` (part_002, lines 42-47). -/
inductive CacheOperation where
  | Get
  | Mget
  | Cached
  | Mcached

/-- One `read` event (part_002, line 39): the logical (un-namespaced) key,
whether it was a hit, and the operation kind. -/
structure ReadEvent where
  key : String
  hit : Bool
  operation : CacheOperation

/-- One primitive call issued to the injected adapter. -/
inductive AdapterCall where
  | get (key : String)
  | set (key value : String) (ttlMs : Int)
  | mget (keys : List String)
  | mset (entries : List (String × String × Int))

/-- `Cache.getCacheKey` (part_002, lines 470-474): `{ns}:{key}` when a
namespace is configured; `!this.prefix` is true both for an absent
namespace and for the empty string, in which case the key is unchanged. -/
def getCacheKey (ns : Option String) (key : String) : String :=
  match ns with
  | none => key
  | some p => if p = "" then key else p ++ ":" ++ key

/-- Result record of `Cache.get`. -/
structure GetRun (V : Type) where
  result : Option V
  adapterCalls : List AdapterCall
  events : List ReadEvent

/-- `Cache.get` (part_002, lines 98-112): one adapter get of the namespaced
key; on miss emit `(key, false, Get)` and return `undefined`, on hit emit
`(key, true, Get)` and return the deserialized value. -/
def Cache.get {V : Type} (ns : Option String) (deserialize : String → String → V)
    (backend : String → Option String) (key : String) : GetRun V :=
  let cacheKey := getCacheKey ns key
  match backend cacheKey with
  | none =>
      { result := none, adapterCalls := [.get cacheKey], events := [⟨key, false, .Get⟩] }
  | some res =>
      { result := some (deserialize res key), adapterCalls := [.get cacheKey],
        events := [⟨key, true, .Get⟩] }

/-- `Cache.set` (part_002, lines 165-174): one adapter set of the namespaced
key with the serialized value and the TTL resolved against `[value]`. -/
def Cache.set {V : Type} (msParse : String → Int) (ns : Option String)
    (serialize : V → String → String) (key : String) (value : V)
    (ttl : TtlExpression V) : AdapterCall :=
  .set (getCacheKey ns key) (serialize value key) (ttlToMs msParse ttl value)

/-- The effect of an adapter `set` call on a backend that retains the entry:
the written key now answers with the written string. -/
def applySet (call : AdapterCall) (backend : String → Option String) :
    String → Option String :=
  match call with
  | .set k v _ => fun q => if q = k then some v else backend q
  | _ => backend

/-- Result record of `Cache.mget`. -/
structure MgetRun (V : Type) where
  result : List (Option V)
  adapterCalls : List AdapterCall
  events : List ReadEvent

/-- `Cache.mget` (part_002, lines 130-156): `keys.length === 0` short-circuits
with no adapter call and no events; otherwise one batched adapter `mget` of
the namespaced keys, then per position a `read` event and the deserialized
value (or `undefined`), in input order. -/
def Cache.mget {V : Type} (ns : Option String) (deserialize : String → String → V)
    (backend : String → Option String) (keys : List String) : MgetRun V :=
  if keys.length = 0 then { result := [], adapterCalls := [], events := [] }
  else
    let cacheKeys := keys.map (getCacheKey ns)
    let res := cacheKeys.map backend
    { result := (keys.zip res).map fun (k, r) => r.map fun s => deserialize s k
      adapterCalls := [.mget cacheKeys]
      events := (keys.zip res).map fun (k, r) => ⟨k, r.isSome, .Mget⟩ }

/-- The per-position data `Cache.mcached` assembles (part_002, lines
400-415): the datum, its logical key `makeKey(datum, index)`, and the
batched get's answer for its namespaced cache key.  The source holds these
in parallel arrays indexed by position (`data`, `keys`, `cachedResults`);
the embedding zips them into one list of cells, preserving order. -/
def mcachedCells {D : Type} (ns : Option String) (backend : String → Option String)
    (makeKey : D → Nat → String) (data : List D) : List (D × String × Option String) :=
  data.enum.map fun (i, d) =>
    let k := makeKey d i
    (d, k, backend (getCacheKey ns k))

/-- `missingData` (part_002, lines 405-419): the data items at miss
positions in their original relative order — the source's
`missingIndices.map((index) => data[index])` with `missingIndices` collected
in ascending position order. -/
def missingOf {D : Type} (cells : List (D × String × Option String)) : List D :=
  cells.filterMap fun c => if c.2.2.isSome then none else some c.1

/-- The `read` events of `Cache.mcached` (part_002, lines 407-415): one per
position in input order, a miss event when the batched get answered
`undefined` and a hit event otherwise. -/
def eventsOf {D : Type} (cells : List (D × String × Option String)) : List ReadEvent :=
  cells.map fun c => ⟨c.2.1, c.2.2.isSome, .Mcached⟩

/-- The merged result list of `Cache.mcached` (part_002, lines 404-415 fill
the hit positions of `toReturn`, lines 436-445 scatter the produced values
into the miss positions): positions are processed in order, hits take the
deserialized cached string and misses consume the produced values in order.
Under the arity guard the produced list has exactly one value per miss, so
the final branch (produced values exhausted at a miss) is unreachable in
`Cache.mcached`. -/
def scatterOf {D V : Type} (deserialize : String → String → V) :
    List (D × String × Option String) → List V → List V
  | [], _ => []
  | (_, k, some s) :: rest, ps => deserialize s k :: scatterOf deserialize rest ps
  | (_, _, none) :: rest, p :: ps => p :: scatterOf deserialize rest ps
  | (_, _, none) :: _, [] => []

/-- `toStore` (part_002, lines 434-445): one `[cacheKey, serialized, ttlMs]`
entry per produced value, in producer-output order; the TTL expression
receives `(value, index)` with the index `j` counting within the producer's
output, and the key/cacheKey are those of the value's original position. -/
def toStoreOf {D V : Type} (msParse : String → Int) (ns : Option String)
    (serialize : V → String → String) (ttl : TtlExpression (V × Nat)) :
    List (D × String × Option String) → List V → Nat → List (String × String × Int)
  | [], _, _ => []
  | (_, _, some _) :: rest, ps, j => toStoreOf msParse ns serialize ttl rest ps j
  | (_, k, none) :: rest, p :: ps, j =>
      (getCacheKey ns k, serialize p k, ttlToMs msParse ttl (p, j))
        :: toStoreOf msParse ns serialize ttl rest ps (j + 1)
  | (_, _, none) :: _, [], _ => []

/-- The number of miss positions strictly before position `i` — the rank a
miss at position `i` occupies in `missingData` and in the producer's
output. -/
def missCountBefore {D : Type} (cells : List (D × String × Option String)) (i : Nat) : Nat :=
  (cells.take i).countP fun c => c.2.2.isNone

/-- Result record of `Cache.mcached`; `result` is `Except.error` exactly when
the call throws. -/
structure McachedRun (D V : Type) where
  result : Except String (List V)
  adapterCalls : List AdapterCall
  producerCalls : List (List D)
  events : List ReadEvent

/-- `Cache.mcached` (part_002, lines 394-450): derive the keys, issue one
batched get (also for empty input — there is no short-circuit), emit one
event per position; if nothing is missing return the hits at once with no
producer call and no write; otherwise call the producer once with the
missing data, throw on an arity mismatch without writing, and otherwise
scatter, store the produced entries with one batched set, and return the
merged list. -/
def Cache.mcached {D V : Type} (msParse : String → Int) (ns : Option String)
    (serialize : V → String → String) (deserialize : String → String → V)
    (backend : String → Option String) (data : List D)
    (makeKey : D → Nat → String) (producer : List D → List V)
    (ttl : TtlExpression (V × Nat)) : McachedRun D V :=
  let cells := mcachedCells ns backend makeKey data
  let cacheKeys := cells.map fun c => getCacheKey ns c.2.1
  let events := eventsOf cells
  let missingData := missingOf cells
  if missingData.isEmpty then
    { result := .ok (scatterOf deserialize cells [])
      adapterCalls := [.mget cacheKeys]
      producerCalls := []
      events }
  else
    let producedValues := producer missingData
    if producedValues.length ≠ missingData.length then
      { result := .error
          "The producer did not return exactly as many results as inputs were given."
        adapterCalls := [.mget cacheKeys]
        producerCalls := [missingData]
        events }
    else
      { result := .ok (scatterOf deserialize cells producedValues)
        adapterCalls := [.mget cacheKeys,
          .mset (toStoreOf msParse ns serialize ttl cells producedValues 0)]
        producerCalls := [missingData]
        events }

/-- `defaultSerialize` (part_002, lines 477-479): `JSON.stringify` of the
value; the key argument of the `Serialize` shape is unused. -/
def defaultSerialize (value : Json) (_key : String) : String := jsonStringify value

/-- `defaultDeserialize` (part_002, lines 481-483): `JSON.parse`.  On strings
that are not valid JSON the built-in throws; the model returns `Json.null`
there.  No theorem below depends on that branch: the round-trip theorems
only feed it strings produced by `jsonStringify`, where `jsonParse`
succeeds. -/
def defaultDeserialize (value : String) (_key : String) : Json :=
  (jsonParse value).getD .null

/-! ## Memory adapter (`src/src/adapters/memory.ts`)

The injected TTL-aware map engine (`TtlCacheEngine`) is external; a mutating
adapter operation is modelled by the ordered list of engine operations it
performs plus whether it requested a backup save.  `void this.saveBackup()`
is fire-and-forget: the save is requested and not awaited, and `saveBackup`
reaches `saveCacheBackup` exactly when a backup saver is configured
(memory.ts, lines 97-103). -/

/-- One operation issued to the injected TTL-aware map engine. -/
inductive EngineOp where
  | set (key value : String) (ttl : Int)
  | del (key : String)
  | clear

/-- Observable outcome of a mutating `MemoryCacheAdapter` operation. -/
structure MemRun where
  engineOps : List EngineOp
  saveRequested : Bool

/-- `MemoryCacheAdapter.mset` (memory.ts, lines 41-52): set every entry with
its own TTL, then request a save without awaiting it. -/
def MemoryCacheAdapter.mset (hasBackupSaver : Bool)
    (entries : List (String × String × Int)) : MemRun :=
  { engineOps := entries.map fun (k, v, t) => .set k v t
    saveRequested := hasBackupSaver }

/-- `MemoryCacheAdapter.mdel` (memory.ts, lines 54-59): delete every key,
then request a save without awaiting it. -/
def MemoryCacheAdapter.mdel (hasBackupSaver : Bool) (keys : List String) : MemRun :=
  { engineOps := keys.map .del
    saveRequested := hasBackupSaver }

/-- `MemoryCacheAdapter.pdel` (memory.ts, lines 61-75): the pattern `"*"`
clears the engine and returns early — before the `saveBackup` call, so no
save is requested on that path; any other pattern deletes the keys matched
by `micromatch` (an external pure function, passed as a parameter) and
requests a save. -/
def MemoryCacheAdapter.pdel (hasBackupSaver : Bool)
    (micromatch : List String → String → List String)
    (engineKeys : List String) (pattern : String) : MemRun :=
  if pattern = "*" then { engineOps := [.clear], saveRequested := false }
  else
    { engineOps := (micromatch engineKeys pattern).map .del
      saveRequested := hasBackupSaver }

/-- `MemoryCacheAdapter.importCacheFromBackup` (memory.ts, lines 85-95),
run once at construction when a backup saver is configured: for each backup
entry `(key, value, expireAtMs)` in order, insert it into the engine with
TTL `expireAtMs - now` exactly when `expireAtMs > now`; entries already
expired are skipped and never inserted. -/
def importCacheFromBackup (now : Int) (backup : List (String × String × Int)) :
    List EngineOp :=
  backup.filterMap fun (k, v, expireAtMs) =>
    if expireAtMs > now then some (.set k v (expireAtMs - now)) else none

/-! ## Disk backup saver (`src/src/adapters/memory.ts`, `DiskCacheBackupSaver`)

`saveCacheBackup` (lines 153-168) runs synchronously from its entry to the
`await` of the file write: it returns early when `saving` is already set,
otherwise sets `saving`, serializes the snapshot with `JSON.stringify`, and
starts the write.  A concurrent call that arrives while the write is in
flight observes `saving = true`.  The call completes by clearing `saving`
in a `finally` block, whether the write succeeded or threw.  The embedding
splits a call into this begin phase and a finish phase at the `await`
point. -/

/-- The JSON text written for a snapshot (`JSON.stringify(cacheBackup)`,
line 159): an object mapping each storage key to
`{"value": ..., "expireAtMs": ...}` in insertion order. -/
def stringifyBackup (cacheBackup : List (String × String × Int)) : String :=
  jsonStringify (.obj (cacheBackup.map fun (k, v, e) =>
    (k, .obj [("value", .str v), ("expireAtMs", .num e)])))

/-- `DiskCacheBackupSaver` state: the `saving` flag (line 153) and the
current backup file content (`none` when the file does not exist). -/
structure SaverState where
  saving : Bool
  file : Option String

/-- What a `saveCacheBackup` call does before suspending: nothing (early
return) or a pending write of the serialized snapshot. -/
inductive SavePhase where
  | skipped
  | writing (content : String)

/-- The synchronous prefix of `saveCacheBackup` (lines 155-159). -/
def saveCacheBackupBegin (st : SaverState)
    (cacheBackup : List (String × String × Int)) : SaverState × SavePhase :=
  if st.saving then (st, .skipped)
  else ({ st with saving := true }, .writing (stringifyBackup cacheBackup))

/-- The completion of `saveCacheBackup` (lines 161-167): a call that began a
write stores the serialized snapshot when the write succeeds (on a failed
write the file is left as it was), and the `finally` block clears `saving`
on both outcomes; a call that returned early changes nothing. -/
def saveCacheBackupFinish (st : SaverState) (phase : SavePhase) (writeOk : Bool) :
    SaverState :=
  match phase with
  | .skipped => st
  | .writing content =>
      { saving := false, file := if writeOk then some content else st.file }

/-! ## Concrete fixtures used by witness theorems -/

/-- Witness fixture: the `ms` parser is irrelevant to the witnesses. -/
def exMs (_ : String) : Int := 0

/-- Witness fixture: a backend holding exactly the storage key `"b"`. -/
def exBackend (k : String) : Option String := if k = "b" then some "B" else none

/-- Witness fixture: the key of a datum is the datum itself. -/
def exMakeKey (d : String) (_ : Nat) : String := d

/-- Witness fixture: a well-behaved batch producer (one output per input). -/
def exProducer (l : List String) : List String := l.map fun d => d ++ "!"

/-- Witness fixture: a misbehaving batch producer that always returns `[]`. -/
def exBadProducer (_ : List String) : List String := []

/-- Witness fixture: identity serializer. -/
def exSer (v : String) (_ : String) : String := v

/-- Witness fixture: identity deserializer. -/
def exDeser (s : String) (_ : String) : String := s

/-! ## Round trip of the default JSON codec

`jsonParse (jsonStringify v) = some v` for every JSON-representable value:
the key lemma behind the orchestrator's set-then-get property with the
default serializer and deserializer. -/

theorem toNat_ofNat_of_lt {n : Nat} (h : n < 55296) : (Char.ofNat n).toNat = n := by
  unfold Char.ofNat
  split
  · rfl
  · next hn => exact absurd (Or.inl h) hn

theorem ne_of_toNat_ne {c d : Char} (h : c.toNat ≠ d.toNat) : c ≠ d :=
  fun he => h (he ▸ rfl)

theorem toNat_bounds_of_digit {c : Char} (h : isDigitChar c = true) :
    48 ≤ c.toNat ∧ c.toNat ≤ 57 := by
  unfold isDigitChar at h
  simp only [Bool.and_eq_true, decide_eq_true_eq] at h
  obtain ⟨h1, h2⟩ := h
  rw [Char.le_def, UInt32.le_def, BitVec.le_def] at h1 h2
  exact ⟨h1, h2⟩

theorem isJsonWs_eq_false_of_digit {c : Char} (h : isDigitChar c = true) :
    isJsonWs c = false := by
  obtain ⟨h1, h2⟩ := toNat_bounds_of_digit h
  have e1 : (' ').toNat = 32 := rfl
  have e2 : ('\t').toNat = 9 := rfl
  have e3 : ('\n').toNat = 10 := rfl
  have e4 : ('\r').toNat = 13 := rfl
  unfold isJsonWs
  rw [decide_eq_false (ne_of_toNat_ne (by omega)),
    decide_eq_false (ne_of_toNat_ne (by omega)),
    decide_eq_false (ne_of_toNat_ne (by omega)),
    decide_eq_false (ne_of_toNat_ne (by omega))]
  rfl

theorem skipWs_cons_of_not_ws {c : Char} (h : isJsonWs c = false) (cs : List Char) :
    skipWs (c :: cs) = c :: cs := by
  simp [skipWs, h]

theorem hexVal_hexDigit {n : Nat} (h : n < 16) : hexVal (hexDigit n) = some n := by
  interval_cases n <;> decide

theorem parseStringBody_quote (rest : List Char) :
    parseStringBody ('"' :: rest) = some ([], rest) := by
  rw [parseStringBody.eq_def]
  norm_num

theorem parseStringBody_plain {c : Char} (rest : List Char) (hq : c ≠ '"')
    (hb : c ≠ '\\') (hlt : ¬ c.toNat < 32) :
    parseStringBody (c :: rest) = (parseStringBody rest).map fun (cs, r') => (c :: cs, r') := by
  rw [parseStringBody.eq_def]
  simp only [if_neg hq, if_neg hb, if_neg hlt]

theorem parseStringBody_esc (rest : List Char) (e c' : Char) (he : escCharFor e = some c')
    (hu : e ≠ 'u') :
    parseStringBody ('\\' :: e :: rest) =
      (parseStringBody rest).map fun (cs, r') => (c' :: cs, r') := by
  rw [parseStringBody.eq_def]
  simp only [if_neg (by decide : ¬('\\' : Char) = '"'), if_pos rfl]
  rw [if_pos trivial]
  split
  · next heq =>
      rw [List.cons_eq_cons] at heq
      exact absurd heq.1 hu
  · next heq =>
      rw [List.cons_eq_cons] at heq
      obtain ⟨rfl, rfl⟩ := heq
      rw [he]
  · next heq => exact absurd heq (by simp)

theorem parseStringBody_unicode (rest : List Char) (h3 h4 : Char) (a b : Nat)
    (e3 : hexVal h3 = some a) (e4 : hexVal h4 = some b) :
    parseStringBody ('\\' :: 'u' :: '0' :: '0' :: h3 :: h4 :: rest) =
      (parseStringBody rest).map fun (cs, r') =>
        (Char.ofNat (((0 * 16 + 0) * 16 + a) * 16 + b) :: cs, r') := by
  rw [parseStringBody.eq_def]
  simp only [if_neg (by decide : ¬('\\' : Char) = '"'), if_pos rfl]
  rw [if_pos trivial]
  split
  · next ha hb hc hd =>
      rw [show hexVal '0' = some 0 from by decide] at ha hb
      rw [e3] at hc
      rw [e4] at hd
      obtain rfl := Option.some.inj ha
      obtain rfl := Option.some.inj hb
      obtain rfl := Option.some.inj hc
      obtain rfl := Option.some.inj hd
      rfl
  · next contra =>
      exact absurd (contra 0 0 a b (by decide) (by decide) e3 e4) id

theorem isDigitChar_of_toNat {c : Char} (h1 : 48 ≤ c.toNat) (h2 : c.toNat ≤ 57) :
    isDigitChar c = true := by
  unfold isDigitChar
  rw [Bool.and_eq_true, decide_eq_true_eq, decide_eq_true_eq]
  constructor
  · rw [Char.le_def, UInt32.le_def, BitVec.le_def]
    exact h1
  · rw [Char.le_def, UInt32.le_def, BitVec.le_def]
    exact h2

theorem isDigitChar_natChars {n : Nat} : ∀ c ∈ natChars n, isDigitChar c = true := by
  intro c hc
  unfold natChars at hc
  split at hc
  · obtain rfl := List.mem_singleton.mp hc
    decide
  · obtain ⟨d, hd, rfl⟩ := List.mem_map.mp hc
    have hd10 : d < 10 := Nat.digits_lt_base (by norm_num) (List.mem_reverse.mp hd)
    have ht : (Char.ofNat (48 + d)).toNat = 48 + d := toNat_ofNat_of_lt (by omega)
    exact isDigitChar_of_toNat (by omega) (by omega)

theorem natChars_ne_nil (n : Nat) : natChars n ≠ [] := by
  unfold natChars
  split
  · exact (List.cons_ne_nil _ _)
  · next h =>
      simp only [ne_eq, List.map_eq_nil_iff, List.reverse_eq_nil_iff]
      exact Nat.digits_ne_nil_iff_ne_zero.mpr h

theorem foldl_digit_chars (ds : List Nat) (h : ∀ d ∈ ds, d < 10) (acc : Nat) :
    List.foldl (fun a c => 10 * a + (c.toNat - 48)) acc
      (ds.reverse.map fun d => Char.ofNat (48 + d))
      = acc * 10 ^ ds.length + Nat.ofDigits 10 ds := by
  induction ds generalizing acc with
  | nil => simp [Nat.ofDigits]
  | cons d ds ih =>
      rw [List.reverse_cons, List.map_append, List.map_singleton, List.foldl_concat,
        ih (fun x hx => h x (List.mem_cons_of_mem _ hx))]
      have ht : (Char.ofNat (48 + d)).toNat = 48 + d :=
        toNat_ofNat_of_lt (by have := h d (List.mem_cons_self d ds); omega)
      rw [ht, Nat.ofDigits_cons, List.length_cons, pow_succ]
      have hsub : 48 + d - 48 = d := by omega
      rw [hsub]
      ring

theorem digitsVal_natChars (n : Nat) : digitsVal (natChars n) = n := by
  unfold natChars
  split
  · next h => subst h; decide
  · unfold digitsVal
    rw [foldl_digit_chars _ (fun d hd => Nat.digits_lt_base (by norm_num) hd) 0,
      Nat.ofDigits_digits]
    omega

theorem parseNat_natChars (n : Nat) (rest : List Char)
    (hrest : ∀ c, rest.head? = some c → isDigitChar c = false) :
    parseNat (natChars n ++ rest) = some (n, rest) := by
  have htake1 : (natChars n).takeWhile isDigitChar = natChars n :=
    List.takeWhile_eq_self_iff.mpr isDigitChar_natChars
  have htake2 : rest.takeWhile isDigitChar = [] := by
    cases rest with
    | nil => rfl
    | cons c t => exact List.takeWhile_cons_of_neg (by simp [hrest c rfl])
  have hdrop1 : (natChars n).dropWhile isDigitChar = [] :=
    List.dropWhile_eq_nil_iff.mpr isDigitChar_natChars
  have hdrop2 : rest.dropWhile isDigitChar = rest := by
    cases rest with
    | nil => rfl
    | cons c t => exact List.dropWhile_cons_of_neg (by simp [hrest c rfl])
  unfold parseNat
  rw [List.takeWhile_append, htake1, if_pos rfl, htake2, List.dropWhile_append, hdrop1,
    hdrop2, List.append_nil]
  rw [if_neg (by simp [natChars_ne_nil n])]
  rw [digitsVal_natChars]
  simp

theorem natChars_head (n : Nat) :
    ∃ c cs', natChars n = c :: cs' ∧ isDigitChar c = true := by
  cases hn : natChars n with
  | nil => exact absurd hn (natChars_ne_nil n)
  | cons c cs' =>
      exact ⟨c, cs', rfl, isDigitChar_natChars c (by rw [hn]; exact List.mem_cons_self c cs')⟩

theorem parseNumber_intChars (n : Int) (rest : List Char)
    (hrest : ∀ c, rest.head? = some c → isDigitChar c = false) :
    parseNumber (intChars n ++ rest) = some (n, rest) := by
  unfold intChars
  split
  · next hneg =>
      rw [List.cons_append, parseNumber, if_pos rfl, parseNat_natChars _ _ hrest]
      simp only [Option.map_some']
      have he : -((n.natAbs : Int)) = n := by omega
      rw [he]
  · next hpos =>
      obtain ⟨c, cs', hcs, hdig⟩ := natChars_head n.natAbs
      rw [hcs, List.cons_append, parseNumber]
      rw [if_neg (ne_of_toNat_ne (by
        have h1 := toNat_bounds_of_digit hdig
        have h2 : ('-').toNat = 45 := rfl
        omega))]
      rw [← List.cons_append, ← hcs, parseNat_natChars _ _ hrest]
      simp only [Option.map_some']
      have he : ((n.natAbs : Int)) = n := by omega
      rw [he]

theorem parseStringBody_render (cs rest : List Char) :
    parseStringBody ((cs.map escapeChar).flatten ++ '"' :: rest) = some (cs, rest) := by
  induction cs with
  | nil => simpa using parseStringBody_quote rest
  | cons c cs ih =>
      rw [List.map_cons, List.flatten_cons, List.append_assoc]
      by_cases hq : c = '"'
      · subst hq
        rw [show escapeChar '"' = ['\\', '"'] from by decide]
        rw [List.cons_append, List.cons_append, List.nil_append,
          parseStringBody_esc _ '"' '"' (by decide) (by decide), ih]
        rfl
      · by_cases hb : c = '\\'
        · subst hb
          rw [show escapeChar '\\' = ['\\', '\\'] from by decide]
          rw [List.cons_append, List.cons_append, List.nil_append,
            parseStringBody_esc _ '\\' '\\' (by decide) (by decide), ih]
          rfl
        · by_cases h8 : c = '\x08'
          · subst h8
            rw [show escapeChar '\x08' = ['\\', 'b'] from by decide]
            rw [List.cons_append, List.cons_append, List.nil_append,
              parseStringBody_esc _ 'b' '\x08' (by decide) (by decide), ih]
            rfl
          · by_cases ht : c = '\t'
            · subst ht
              rw [show escapeChar '\t' = ['\\', 't'] from by decide]
              rw [List.cons_append, List.cons_append, List.nil_append,
                parseStringBody_esc _ 't' '\t' (by decide) (by decide), ih]
              rfl
            · by_cases hn : c = '\n'
              · subst hn
                rw [show escapeChar '\n' = ['\\', 'n'] from by decide]
                rw [List.cons_append, List.cons_append, List.nil_append,
                  parseStringBody_esc _ 'n' '\n' (by decide) (by decide), ih]
                rfl
              · by_cases hf : c = '\x0c'
                · subst hf
                  rw [show escapeChar '\x0c' = ['\\', 'f'] from by decide]
                  rw [List.cons_append, List.cons_append, List.nil_append,
                    parseStringBody_esc _ 'f' '\x0c' (by decide) (by decide), ih]
                  rfl
                · by_cases hr : c = '\r'
                  · subst hr
                    rw [show escapeChar '\r' = ['\\', 'r'] from by decide]
                    rw [List.cons_append, List.cons_append, List.nil_append,
                      parseStringBody_esc _ 'r' '\r' (by decide) (by decide), ih]
                    rfl
                  · by_cases hlt : c.toNat < 32
                    · rw [escapeChar, if_neg hq, if_neg hb, if_neg h8, if_neg ht,
                        if_neg hn, if_neg hf, if_neg hr, if_pos hlt]
                      have e1 : hexVal (hexDigit (c.toNat / 16)) = some (c.toNat / 16) :=
                        hexVal_hexDigit (by omega)
                      have e2 : hexVal (hexDigit (c.toNat % 16)) = some (c.toNat % 16) :=
                        hexVal_hexDigit (by omega)
                      have harg : ((0 * 16 + 0) * 16 + c.toNat / 16) * 16 + c.toNat % 16
                          = c.toNat := by omega
                      simp only [List.cons_append, List.nil_append]
                      rw [parseStringBody_unicode _ _ _ _ _ e1 e2, ih, harg,
                        Char.ofNat_toNat]
                      rfl
                    · rw [escapeChar, if_neg hq, if_neg hb, if_neg h8, if_neg ht,
                        if_neg hn, if_neg hf, if_neg hr, if_neg hlt]
                      simp only [List.cons_append, List.nil_append]
                      rw [parseStringBody_plain _ hq hb hlt, ih]
                      rfl

theorem parseVal_null (f : Nat) (cs : List Char) :
    parseVal (f + 1) ('n' :: 'u' :: 'l' :: 'l' :: cs) = some (.null, cs) := by
  rw [parseVal.eq_def]
  simp [skipWs, isJsonWs]

theorem parseVal_true (f : Nat) (cs : List Char) :
    parseVal (f + 1) ('t' :: 'r' :: 'u' :: 'e' :: cs) = some (.bool true, cs) := by
  rw [parseVal.eq_def]
  simp [skipWs, isJsonWs]

theorem parseVal_false (f : Nat) (cs : List Char) :
    parseVal (f + 1) ('f' :: 'a' :: 'l' :: 's' :: 'e' :: cs) = some (.bool false, cs) := by
  rw [parseVal.eq_def]
  simp [skipWs, isJsonWs]

theorem parseVal_quote (f : Nat) (cs : List Char) :
    parseVal (f + 1) ('"' :: cs)
      = (parseStringBody cs).map fun (body, r) => (.str ⟨body⟩, r) := by
  rw [parseVal.eq_def]
  simp only [skipWs_cons_of_not_ws (by decide : isJsonWs '"' = false),
    if_neg (by decide : ¬('"' : Char) = 'n'), if_neg (by decide : ¬('"' : Char) = 't'),
    if_neg (by decide : ¬('"' : Char) = 'f'), if_pos rfl]
  rw [if_pos trivial]

theorem parseVal_arr_nil (f : Nat) (cs r : List Char) (h : skipWs cs = ']' :: r) :
    parseVal (f + 1) ('[' :: cs) = some (.arr [], r) := by
  rw [parseVal.eq_def]
  simp only [skipWs_cons_of_not_ws (by decide : isJsonWs '[' = false),
    if_neg (by decide : ¬('[' : Char) = 'n'), if_neg (by decide : ¬('[' : Char) = 't'),
    if_neg (by decide : ¬('[' : Char) = 'f'), if_neg (by decide : ¬('[' : Char) = '"'),
    if_pos rfl, h, if_pos (rfl : (']' : Char) = ']')]
  rw [if_pos trivial, if_pos trivial]

theorem parseVal_arr_cons (f : Nat) (cs : List Char) (c2 : Char) (r2 : List Char)
    (h : skipWs cs = c2 :: r2) (hne : c2 ≠ ']') :
    parseVal (f + 1) ('[' :: cs)
      = (parseElems f (c2 :: r2)).map fun (xs, r) => (.arr xs, r) := by
  rw [parseVal.eq_def]
  simp only [skipWs_cons_of_not_ws (by decide : isJsonWs '[' = false),
    if_neg (by decide : ¬('[' : Char) = 'n'), if_neg (by decide : ¬('[' : Char) = 't'),
    if_neg (by decide : ¬('[' : Char) = 'f'), if_neg (by decide : ¬('[' : Char) = '"'),
    if_pos rfl, h, if_neg hne]
  rw [if_pos trivial]

theorem parseVal_obj_nil (f : Nat) (cs r : List Char) (h : skipWs cs = '}' :: r) :
    parseVal (f + 1) ('{' :: cs) = some (.obj [], r) := by
  rw [parseVal.eq_def]
  simp only [skipWs_cons_of_not_ws (by decide : isJsonWs '{' = false),
    if_neg (by decide : ¬('{' : Char) = 'n'), if_neg (by decide : ¬('{' : Char) = 't'),
    if_neg (by decide : ¬('{' : Char) = 'f'), if_neg (by decide : ¬('{' : Char) = '"'),
    if_neg (by decide : ¬('{' : Char) = '['), if_pos rfl, h,
    if_pos (rfl : ('}' : Char) = '}')]
  rw [if_pos trivial, if_pos trivial]

theorem parseVal_obj_cons (f : Nat) (cs : List Char) (c2 : Char) (r2 : List Char)
    (h : skipWs cs = c2 :: r2) (hne : c2 ≠ '}') :
    parseVal (f + 1) ('{' :: cs)
      = (parseFields f (c2 :: r2)).map fun (fs, r) => (.obj fs, r) := by
  rw [parseVal.eq_def]
  simp only [skipWs_cons_of_not_ws (by decide : isJsonWs '{' = false),
    if_neg (by decide : ¬('{' : Char) = 'n'), if_neg (by decide : ¬('{' : Char) = 't'),
    if_neg (by decide : ¬('{' : Char) = 'f'), if_neg (by decide : ¬('{' : Char) = '"'),
    if_neg (by decide : ¬('{' : Char) = '['), if_pos rfl, h, if_neg hne]
  rw [if_pos trivial]

theorem parseVal_num (f : Nat) (c : Char) (cs : List Char)
    (hws : isJsonWs c = false) (h1 : c ≠ 'n') (h2 : c ≠ 't') (h3 : c ≠ 'f')
    (h4 : c ≠ '"') (h5 : c ≠ '[') (h6 : c ≠ '{') :
    parseVal (f + 1) (c :: cs) = (parseNumber (c :: cs)).map fun (n, r) => (.num n, r) := by
  rw [parseVal.eq_def]
  simp only [skipWs_cons_of_not_ws hws, if_neg h1, if_neg h2, if_neg h3, if_neg h4,
    if_neg h5, if_neg h6]

theorem parseElems_last (f : Nat) (cs : List Char) (v : Json) (r2 : List Char)
    (hv : parseVal f cs = some (v, ']' :: r2)) :
    parseElems (f + 1) cs = some ([v], r2) := by
  rw [parseElems.eq_def]
  simp only [hv, Option.bind_eq_bind, Option.some_bind,
    skipWs_cons_of_not_ws (by decide : isJsonWs ']' = false),
    if_neg (by decide : ¬(']' : Char) = ','), if_pos rfl]
  rw [if_pos trivial]
  rfl

theorem parseElems_more (f : Nat) (cs : List Char) (v : Json) (r2 : List Char)
    (hv : parseVal f cs = some (v, ',' :: r2)) :
    parseElems (f + 1) cs
      = (parseElems f r2).map fun (xs, r3) => (v :: xs, r3) := by
  rw [parseElems.eq_def]
  simp only [hv, Option.bind_eq_bind, Option.some_bind,
    skipWs_cons_of_not_ws (by decide : isJsonWs ',' = false), if_pos rfl]
  rw [if_pos trivial]
  cases parseElems f r2 with
  | none => rfl
  | some p => cases p; rfl

theorem parseFields_last (f : Nat) (cs body r2 r4 : List Char) (v : Json)
    (hk : parseStringBody cs = some (body, ':' :: r2))
    (hv : parseVal f r2 = some (v, '}' :: r4)) :
    parseFields (f + 1) ('"' :: cs) = some ([(⟨body⟩, v)], r4) := by
  rw [parseFields.eq_def]
  simp only [skipWs_cons_of_not_ws (by decide : isJsonWs '"' = false), if_pos rfl, hk,
    Option.bind_eq_bind, Option.some_bind,
    skipWs_cons_of_not_ws (by decide : isJsonWs ':' = false),
    if_pos (rfl : (':' : Char) = ':'), hv,
    skipWs_cons_of_not_ws (by decide : isJsonWs '}' = false),
    if_neg (by decide : ¬('}' : Char) = ','), if_pos (rfl : ('}' : Char) = '}')]
  rw [if_pos trivial, if_pos trivial, if_pos trivial]
  rfl

theorem parseFields_more (f : Nat) (cs body r2 r4 : List Char) (v : Json)
    (hk : parseStringBody cs = some (body, ':' :: r2))
    (hv : parseVal f r2 = some (v, ',' :: r4)) :
    parseFields (f + 1) ('"' :: cs)
      = (parseFields f r4).map fun (fs, r5) => ((⟨body⟩, v) :: fs, r5) := by
  rw [parseFields.eq_def]
  simp only [skipWs_cons_of_not_ws (by decide : isJsonWs '"' = false), if_pos rfl, hk,
    Option.bind_eq_bind, Option.some_bind,
    skipWs_cons_of_not_ws (by decide : isJsonWs ':' = false),
    if_pos (rfl : (':' : Char) = ':'), hv,
    skipWs_cons_of_not_ws (by decide : isJsonWs ',' = false),
    if_pos (rfl : (',' : Char) = ',')]
  rw [if_pos trivial, if_pos trivial, if_pos trivial]
  cases parseFields f r4 with
  | none => rfl
  | some p => cases p; rfl

theorem head_not_digit {c0 : Char} (h : isDigitChar c0 = false) (t : List Char) :
    ∀ c, (c0 :: t).head? = some c → isDigitChar c = false := by
  intro c hc
  rw [List.head?_cons, Option.some.injEq] at hc
  rw [← hc]
  exact h

theorem intChars_head (n : Int) :
    ∃ c cs', intChars n = c :: cs' ∧ isJsonWs c = false ∧
      c ≠ 'n' ∧ c ≠ 't' ∧ c ≠ 'f' ∧ c ≠ '"' ∧ c ≠ '[' ∧ c ≠ '{' ∧
      c ≠ ']' ∧ c ≠ '}' ∧ c ≠ ',' := by
  unfold intChars
  split
  · exact ⟨'-', natChars n.natAbs, rfl, by decide, by decide, by decide, by decide,
      by decide, by decide, by decide, by decide, by decide, by decide⟩
  · obtain ⟨c, cs', hcs, hdig⟩ := natChars_head n.natAbs
    obtain ⟨hb1, hb2⟩ := toNat_bounds_of_digit hdig
    refine ⟨c, cs', hcs, isJsonWs_eq_false_of_digit hdig, ?_, ?_, ?_, ?_, ?_, ?_, ?_, ?_, ?_⟩
    · exact ne_of_toNat_ne (by have e : ('n').toNat = 110 := rfl; omega)
    · exact ne_of_toNat_ne (by have e : ('t').toNat = 116 := rfl; omega)
    · exact ne_of_toNat_ne (by have e : ('f').toNat = 102 := rfl; omega)
    · exact ne_of_toNat_ne (by have e : ('"').toNat = 34 := rfl; omega)
    · exact ne_of_toNat_ne (by have e : ('[').toNat = 91 := rfl; omega)
    · exact ne_of_toNat_ne (by have e : ('{').toNat = 123 := rfl; omega)
    · exact ne_of_toNat_ne (by have e : (']').toNat = 93 := rfl; omega)
    · exact ne_of_toNat_ne (by have e : ('}').toNat = 125 := rfl; omega)
    · exact ne_of_toNat_ne (by have e : (',').toNat = 44 := rfl; omega)

theorem render_head (v : Json) :
    ∃ c cs', render v = c :: cs' ∧ isJsonWs c = false ∧ c ≠ ']' ∧ c ≠ '}' := by
  cases v with
  | null => exact ⟨'n', ['u', 'l', 'l'], by simp [render], by decide, by decide, by decide⟩
  | bool b =>
      cases b with
      | true => exact ⟨'t', ['r', 'u', 'e'], by simp [render], by decide, by decide, by decide⟩
      | false =>
          exact ⟨'f', ['a', 'l', 's', 'e'], by simp [render], by decide, by decide, by decide⟩
  | num n =>
      obtain ⟨c, cs', h, hws, _, _, _, _, _, _, hrb, hcb, _⟩ := intChars_head n
      exact ⟨c, cs', by simp only [render]; exact h, hws, hrb, hcb⟩
  | str s =>
      exact ⟨'"', (s.data.map escapeChar).flatten ++ ['"'],
        by simp [render, renderString], by decide, by decide, by decide⟩
  | arr xs =>
      exact ⟨'[', renderElems xs ++ [']'], by simp [render], by decide, by decide, by decide⟩
  | obj fs =>
      exact ⟨'{', renderFields fs ++ ['}'], by simp [render], by decide, by decide, by decide⟩

theorem renderElems_cons (x : Json) (xs : List Json) :
    ∃ t, renderElems (x :: xs) = render x ++ t := by
  cases xs with
  | nil => exact ⟨[], by simp [renderElems]⟩
  | cons y ys => exact ⟨',' :: renderElems (y :: ys), by simp [renderElems]⟩

theorem renderFields_cons (fv : String × Json) (fs : List (String × Json)) :
    ∃ t, renderFields (fv :: fs) = renderString fv.1 ++ t := by
  cases fs with
  | nil => exact ⟨':' :: render fv.2, by simp [renderFields]⟩
  | cons m fs2 =>
      exact ⟨':' :: (render fv.2 ++ ',' :: renderFields (m :: fs2)), by
        simp [renderFields, List.append_assoc]⟩

mutual

theorem parseVal_render : ∀ (v : Json) (fuel : Nat) (rest : List Char),
    fuelFor v ≤ fuel → (∀ c, rest.head? = some c → isDigitChar c = false) →
    parseVal fuel (render v ++ rest) = some (v, rest)
  | .null, 0, _, hf, _ => by simp only [fuelFor] at hf; omega
  | .bool _, 0, _, hf, _ => by simp only [fuelFor] at hf; omega
  | .num _, 0, _, hf, _ => by simp only [fuelFor] at hf; omega
  | .str _, 0, _, hf, _ => by simp only [fuelFor] at hf; omega
  | .arr _, 0, _, hf, _ => by simp only [fuelFor] at hf; omega
  | .obj _, 0, _, hf, _ => by simp only [fuelFor] at hf; omega
  | .null, f + 1, rest, _, _ => by
      rw [show render .null ++ rest = 'n' :: 'u' :: 'l' :: 'l' :: rest from by simp [render]]
      exact parseVal_null f rest
  | .bool true, f + 1, rest, _, _ => by
      rw [show render (.bool true) ++ rest = 't' :: 'r' :: 'u' :: 'e' :: rest from by
        simp [render]]
      exact parseVal_true f rest
  | .bool false, f + 1, rest, _, _ => by
      rw [show render (.bool false) ++ rest = 'f' :: 'a' :: 'l' :: 's' :: 'e' :: rest from by
        simp [render]]
      exact parseVal_false f rest
  | .num n, f + 1, rest, _, hrest => by
      obtain ⟨c, cs', hic, hws, h1, h2, h3, h4, h5, h6, _, _, _⟩ := intChars_head n
      rw [show render (.num n) = intChars n from by simp only [render], hic,
        List.cons_append, parseVal_num f c _ hws h1 h2 h3 h4 h5 h6,
        ← List.cons_append, ← hic, parseNumber_intChars n rest hrest]
      rfl
  | .str s, f + 1, rest, _, _ => by
      rw [show render (.str s) ++ rest
          = '"' :: ((s.data.map escapeChar).flatten ++ '"' :: rest) from by
        simp [render, renderString]]
      rw [parseVal_quote, parseStringBody_render]
      rfl
  | .arr [], f + 1, rest, _, _ => by
      rw [show render (.arr []) ++ rest = '[' :: ']' :: rest from by
        simp [render, renderElems]]
      exact parseVal_arr_nil f _ rest (skipWs_cons_of_not_ws (by decide) rest)
  | .arr (x :: xs), f + 1, rest, hf, _ => by
      obtain ⟨t, ht⟩ := renderElems_cons x xs
      obtain ⟨c0, cs0, hh, hws0, hne0, _⟩ := render_head x
      have hshape : renderElems (x :: xs) ++ ']' :: rest
          = c0 :: (cs0 ++ (t ++ ']' :: rest)) := by
        rw [ht, hh]
        simp [List.append_assoc]
      have hskip : skipWs (renderElems (x :: xs) ++ ']' :: rest)
          = c0 :: (cs0 ++ (t ++ ']' :: rest)) := by
        rw [hshape]
        exact skipWs_cons_of_not_ws hws0 _
      have hb : elemsFuel (x :: xs) ≤ f := by
        simp only [fuelFor] at hf
        omega
      rw [show render (.arr (x :: xs)) ++ rest
          = '[' :: (renderElems (x :: xs) ++ ']' :: rest) from by
        simp [render, List.append_assoc]]
      rw [parseVal_arr_cons f _ c0 _ hskip hne0, ← hshape,
        parseElems_render x xs f rest hb]
      rfl
  | .obj [], f + 1, rest, _, _ => by
      rw [show render (.obj []) ++ rest = '{' :: '}' :: rest from by
        simp [render, renderFields]]
      exact parseVal_obj_nil f _ rest (skipWs_cons_of_not_ws (by decide) rest)
  | .obj (fv :: fs), f + 1, rest, hf, _ => by
      obtain ⟨t, ht⟩ := renderFields_cons fv fs
      have hshape : renderFields (fv :: fs) ++ '}' :: rest
          = '"' :: (((fv.1.data.map escapeChar).flatten ++ ['"'])
              ++ (t ++ '}' :: rest)) := by
        rw [ht]
        simp [renderString, List.append_assoc]
      have hskip : skipWs (renderFields (fv :: fs) ++ '}' :: rest)
          = '"' :: (((fv.1.data.map escapeChar).flatten ++ ['"'])
              ++ (t ++ '}' :: rest)) := by
        rw [hshape]
        exact skipWs_cons_of_not_ws (by decide) _
      have hb : fieldsFuel (fv :: fs) ≤ f := by
        simp only [fuelFor] at hf
        omega
      rw [show render (.obj (fv :: fs)) ++ rest
          = '{' :: (renderFields (fv :: fs) ++ '}' :: rest) from by
        simp [render, List.append_assoc]]
      rw [parseVal_obj_cons f _ '"' _ hskip (by decide), ← hshape,
        parseFields_render fv fs f rest hb]
      rfl

theorem parseElems_render : ∀ (x : Json) (xs : List Json) (fuel : Nat) (rest : List Char),
    elemsFuel (x :: xs) ≤ fuel →
    parseElems fuel (renderElems (x :: xs) ++ ']' :: rest) = some (x :: xs, rest)
  | x, xs, 0, _, hf => by simp only [elemsFuel] at hf; omega
  | x, [], f + 1, rest, hf => by
      have hb : fuelFor x ≤ f := by
        simp only [elemsFuel] at hf
        omega
      rw [show renderElems [x] ++ ']' :: rest = render x ++ ']' :: rest from by
        simp [renderElems]]
      exact parseElems_last f _ x rest (parseVal_render x f (']' :: rest) hb
        (head_not_digit (by decide) rest))
  | x, y :: ys, f + 1, rest, hf => by
      have hb1 : fuelFor x ≤ f := by
        simp only [elemsFuel] at hf
        omega
      have hb2 : elemsFuel (y :: ys) ≤ f := by
        simp only [elemsFuel] at hf ⊢
        omega
      rw [show renderElems (x :: y :: ys) ++ ']' :: rest
          = render x ++ ',' :: (renderElems (y :: ys) ++ ']' :: rest) from by
        simp [renderElems, List.append_assoc]]
      rw [parseElems_more f _ x _ (parseVal_render x f _ hb1
        (head_not_digit (by decide) _))]
      rw [parseElems_render y ys f rest hb2]
      rfl

theorem parseFields_render : ∀ (fv : String × Json) (fs : List (String × Json)) (fuel : Nat)
    (rest : List Char), fieldsFuel (fv :: fs) ≤ fuel →
    parseFields fuel (renderFields (fv :: fs) ++ '}' :: rest) = some (fv :: fs, rest)
  | fv, fs, 0, _, hf => by simp only [fieldsFuel] at hf; omega
  | fv, [], f + 1, rest, hf => by
      have hb : fuelFor fv.2 ≤ f := by
        simp only [fieldsFuel] at hf
        omega
      rw [show renderFields [fv] ++ '}' :: rest
          = '"' :: ((fv.1.data.map escapeChar).flatten
              ++ '"' :: (':' :: (render fv.2 ++ '}' :: rest))) from by
        simp [renderFields, renderString, List.append_assoc]]
      rw [parseFields_last f _ fv.1.data _ rest fv.2
        (parseStringBody_render fv.1.data _)
        (parseVal_render fv.2 f ('}' :: rest) hb (head_not_digit (by decide) rest))]
  | fv, fv2 :: fs2, f + 1, rest, hf => by
      have hb1 : fuelFor fv.2 ≤ f := by
        simp only [fieldsFuel] at hf
        omega
      have hb2 : fieldsFuel (fv2 :: fs2) ≤ f := by
        simp only [fieldsFuel] at hf ⊢
        omega
      rw [show renderFields (fv :: fv2 :: fs2) ++ '}' :: rest
          = '"' :: ((fv.1.data.map escapeChar).flatten
              ++ '"' :: (':' :: (render fv.2
                  ++ ',' :: (renderFields (fv2 :: fs2) ++ '}' :: rest)))) from by
        simp [renderFields, renderString, List.append_assoc]]
      rw [parseFields_more f _ fv.1.data _ _ fv.2
        (parseStringBody_render fv.1.data _)
        (parseVal_render fv.2 f _ hb1 (head_not_digit (by decide) _))]
      rw [parseFields_render fv2 fs2 f rest hb2]
      rfl

end

mutual

theorem fuelFor_le_render : ∀ v : Json, fuelFor v ≤ 2 * (render v).length + 1
  | .null => by simp only [fuelFor]; omega
  | .bool _ => by simp only [fuelFor]; omega
  | .num _ => by simp only [fuelFor]; omega
  | .str _ => by simp only [fuelFor]; omega
  | .arr xs => by
      have h := elemsFuel_le_render xs
      simp only [fuelFor, render, List.length_cons, List.length_append]
      simp only [List.length_cons, List.length_nil]
      omega
  | .obj fs => by
      have h := fieldsFuel_le_render fs
      simp only [fuelFor, render, List.length_cons, List.length_append]
      simp only [List.length_cons, List.length_nil]
      omega

theorem elemsFuel_le_render : ∀ xs : List Json, elemsFuel xs ≤ 2 * (renderElems xs).length + 3
  | [] => by simp only [elemsFuel]; omega
  | [x] => by
      have h := fuelFor_le_render x
      simp only [elemsFuel, renderElems]
      omega
  | x :: y :: ys => by
      have h1 := fuelFor_le_render x
      have h2 := elemsFuel_le_render (y :: ys)
      simp only [elemsFuel, renderElems, List.length_append, List.length_cons]
      simp only [elemsFuel] at h2
      omega

theorem fieldsFuel_le_render : ∀ fs : List (String × Json),
    fieldsFuel fs ≤ 2 * (renderFields fs).length + 3
  | [] => by simp only [fieldsFuel]; omega
  | [fv] => by
      have h := fuelFor_le_render fv.2
      simp only [fieldsFuel, renderFields, List.length_append, List.length_cons]
      omega
  | fv :: m :: fs2 => by
      have h1 := fuelFor_le_render fv.2
      have h2 := fieldsFuel_le_render (m :: fs2)
      simp only [fieldsFuel, renderFields, List.length_append, List.length_cons]
      simp only [fieldsFuel] at h2
      omega

end

theorem jsonParse_stringify (v : Json) : jsonParse (jsonStringify v) = some v := by
  unfold jsonParse jsonStringify
  have h := parseVal_render v (2 * (render v).length + 2) []
    (by have := fuelFor_le_render v; omega)
    (by intro c hc; simp at hc)
  rw [List.append_nil] at h
  have hds : (String.mk (render v)).data = render v := rfl
  rw [hds, h]
  rfl

theorem mcachedCells_get? {D : Type} (ns : Option String) (backend : String → Option String)
    (makeKey : D → Nat → String) (data : List D) (i : Nat) :
    (mcachedCells ns backend makeKey data).get? i
      = (data.get? i).map fun d => (d, makeKey d i, backend (getCacheKey ns (makeKey d i))) := by
  unfold mcachedCells
  rw [List.get?_map, List.get?_enum]
  cases data.get? i <;> rfl

theorem mcachedCells_length {D : Type} (ns : Option String) (backend : String → Option String)
    (makeKey : D → Nat → String) (data : List D) :
    (mcachedCells ns backend makeKey data).length = data.length := by
  simp [mcachedCells]

theorem missingOf_length {D : Type} :
    ∀ cells : List (D × String × Option String),
      (missingOf cells).length = cells.countP fun c => c.2.2.isNone
  | [] => rfl
  | (d0, k0, some s0) :: rest => by
      simp only [missingOf, List.filterMap_cons, Option.isSome_some, if_pos, List.countP_cons]
      have ih := missingOf_length rest
      simp only [missingOf] at ih
      simp [ih]
  | (d0, k0, none) :: rest => by
      simp only [missingOf, List.filterMap_cons, Option.isSome_none, List.countP_cons]
      have ih := missingOf_length rest
      simp only [missingOf] at ih
      simp [ih]

theorem scatterOf_length {D V : Type} (deserialize : String → String → V) :
    ∀ (cells : List (D × String × Option String)) (produced : List V),
      produced.length = cells.countP (fun c => c.2.2.isNone) →
      (scatterOf deserialize cells produced).length = cells.length
  | [], _, _ => rfl
  | (d0, k0, some s0) :: rest, produced, hlen => by
      rw [show scatterOf deserialize ((d0, k0, some s0) :: rest) produced
          = deserialize s0 k0 :: scatterOf deserialize rest produced from by
        simp [scatterOf]]
      have hl : produced.length = rest.countP fun c => c.2.2.isNone := by
        simpa [List.countP_cons] using hlen
      simp [scatterOf_length deserialize rest produced hl]
  | (d0, k0, none) :: rest, produced, hlen => by
      obtain ⟨p, ps, rfl⟩ : ∃ p ps, produced = p :: ps := by
        cases produced with
        | nil => simp [List.countP_cons] at hlen
        | cons p ps => exact ⟨p, ps, rfl⟩
      rw [show scatterOf deserialize ((d0, k0, none) :: rest) (p :: ps)
          = p :: scatterOf deserialize rest ps from by simp [scatterOf]]
      have hl : ps.length = rest.countP fun c => c.2.2.isNone := by
        simpa [List.countP_cons] using hlen
      simp [scatterOf_length deserialize rest ps hl]

theorem scatterOf_get?_hit {D V : Type} (deserialize : String → String → V) :
    ∀ (cells : List (D × String × Option String)) (produced : List V) (i : Nat)
      (d : D) (k : String) (s : String),
      produced.length = cells.countP (fun c => c.2.2.isNone) →
      cells.get? i = some (d, k, some s) →
      (scatterOf deserialize cells produced).get? i = some (deserialize s k)
  | [], _, i, d, k, s, _, h => by simp at h
  | (d0, k0, some s0) :: rest, produced, 0, d, k, s, _, h => by
      rw [show scatterOf deserialize ((d0, k0, some s0) :: rest) produced
          = deserialize s0 k0 :: scatterOf deserialize rest produced from by
        simp [scatterOf]]
      simp only [List.get?_cons_zero, Option.some.injEq] at h ⊢
      obtain ⟨rfl, rfl, rfl⟩ : d0 = d ∧ k0 = k ∧ s0 = s := by
        have h1 := congrArg Prod.fst h
        have h2 := congrArg (fun x => x.2.1) h
        have h3 := congrArg (fun x => x.2.2) h
        simp at h1 h2 h3
        exact ⟨h1, h2, h3⟩
      rfl
  | (d0, k0, some s0) :: rest, produced, i + 1, d, k, s, hlen, h => by
      rw [show scatterOf deserialize ((d0, k0, some s0) :: rest) produced
          = deserialize s0 k0 :: scatterOf deserialize rest produced from by
        simp [scatterOf]]
      rw [List.get?_cons_succ] at h ⊢
      exact scatterOf_get?_hit deserialize rest produced i d k s
        (by simpa [List.countP_cons] using hlen) h
  | (d0, k0, none) :: rest, produced, 0, d, k, s, hlen, h => by simp at h
  | (d0, k0, none) :: rest, produced, i + 1, d, k, s, hlen, h => by
      obtain ⟨p, ps, rfl⟩ : ∃ p ps, produced = p :: ps := by
        cases produced with
        | nil => simp [List.countP_cons] at hlen
        | cons p ps => exact ⟨p, ps, rfl⟩
      rw [show scatterOf deserialize ((d0, k0, none) :: rest) (p :: ps)
          = p :: scatterOf deserialize rest ps from by simp [scatterOf]]
      rw [List.get?_cons_succ] at h ⊢
      exact scatterOf_get?_hit deserialize rest ps i d k s
        (by simpa [List.countP_cons] using hlen) h

theorem scatterOf_get?_miss {D V : Type} (deserialize : String → String → V) :
    ∀ (cells : List (D × String × Option String)) (produced : List V) (i : Nat)
      (d : D) (k : String),
      produced.length = cells.countP (fun c => c.2.2.isNone) →
      cells.get? i = some (d, k, none) →
      (scatterOf deserialize cells produced).get? i
        = produced.get? ((cells.take i).countP fun c => c.2.2.isNone)
  | [], _, i, d, k, _, h => by simp at h
  | (d0, k0, some s0) :: rest, produced, 0, d, k, _, h => by simp at h
  | (d0, k0, some s0) :: rest, produced, i + 1, d, k, hlen, h => by
      rw [show scatterOf deserialize ((d0, k0, some s0) :: rest) produced
          = deserialize s0 k0 :: scatterOf deserialize rest produced from by
        simp [scatterOf]]
      rw [List.get?_cons_succ] at h ⊢
      rw [scatterOf_get?_miss deserialize rest produced i d k
        (by simpa [List.countP_cons] using hlen) h]
      simp [List.countP_cons]
  | (d0, k0, none) :: rest, produced, 0, d, k, hlen, h => by
      obtain ⟨p, ps, rfl⟩ : ∃ p ps, produced = p :: ps := by
        cases produced with
        | nil => simp [List.countP_cons] at hlen
        | cons p ps => exact ⟨p, ps, rfl⟩
      rw [show scatterOf deserialize ((d0, k0, none) :: rest) (p :: ps)
          = p :: scatterOf deserialize rest ps from by simp [scatterOf]]
      simp
  | (d0, k0, none) :: rest, produced, i + 1, d, k, hlen, h => by
      obtain ⟨p, ps, rfl⟩ : ∃ p ps, produced = p :: ps := by
        cases produced with
        | nil => simp [List.countP_cons] at hlen
        | cons p ps => exact ⟨p, ps, rfl⟩
      rw [show scatterOf deserialize ((d0, k0, none) :: rest) (p :: ps)
          = p :: scatterOf deserialize rest ps from by simp [scatterOf]]
      rw [List.get?_cons_succ] at h ⊢
      rw [scatterOf_get?_miss deserialize rest ps i d k
        (by simpa [List.countP_cons] using hlen) h]
      simp [List.countP_cons]

theorem missingOf_get? {D : Type} :
    ∀ (cells : List (D × String × Option String)) (i : Nat) (d : D) (k : String),
      cells.get? i = some (d, k, none) →
      (missingOf cells).get? ((cells.take i).countP fun c => c.2.2.isNone) = some d
  | [], i, d, k, h => by simp at h
  | (d0, k0, some s0) :: rest, 0, d, k, h => by simp at h
  | (d0, k0, some s0) :: rest, i + 1, d, k, h => by
      rw [List.get?_cons_succ] at h
      rw [show missingOf ((d0, k0, some s0) :: rest) = missingOf rest from by
        simp [missingOf]]
      have hc : List.countP (fun c => c.2.2.isNone)
            (List.take (i + 1) ((d0, k0, some s0) :: rest))
          = List.countP (fun c => c.2.2.isNone) (List.take i rest) := by
        simp [List.countP_cons]
      rw [hc]
      exact missingOf_get? rest i d k h
  | (d0, k0, none) :: rest, 0, d, k, h => by
      simp only [List.get?_cons_zero, Option.some.injEq, Prod.mk.injEq] at h
      obtain ⟨rfl, rfl, -⟩ := h
      rw [show missingOf ((d0, k0, none) :: rest) = d0 :: missingOf rest from by
        simp [missingOf]]
      simp
  | (d0, k0, none) :: rest, i + 1, d, k, h => by
      rw [List.get?_cons_succ] at h
      rw [show missingOf ((d0, k0, none) :: rest) = d0 :: missingOf rest from by
        simp [missingOf]]
      have hc : List.countP (fun c => c.2.2.isNone)
            (List.take (i + 1) ((d0, k0, none) :: rest))
          = List.countP (fun c => c.2.2.isNone) (List.take i rest) + 1 := by
        simp [List.countP_cons]
      rw [hc, List.get?_cons_succ]
      exact missingOf_get? rest i d k h

theorem missingOf_eq_nil {D : Type} (cells : List (D × String × Option String))
    (h : ∀ c ∈ cells, c.2.2.isSome = true) : missingOf cells = [] := by
  unfold missingOf
  rw [List.filterMap_eq_nil_iff]
  intro c hc
  simp [h c hc]

theorem countP_isNone_eq_zero {D : Type} (cells : List (D × String × Option String))
    (h : ∀ c ∈ cells, c.2.2.isSome = true) :
    cells.countP (fun c => c.2.2.isNone) = 0 := by
  rw [List.countP_eq_zero]
  intro c hc
  have hs := h c hc
  cases hv : c.2.2 with
  | none => rw [hv] at hs; simp at hs
  | some s => simp

/-- C1: when `mcached` finds at least one miss (and the producer honours the
arity contract), it invokes the batch producer exactly once, passing exactly
the data items at the missing positions in their original relative order,
and returns a list of the same length as `data` in which every hit position
holds the deserialized cached value and every miss position holds the
produced value of its rank (input order preserved). -/
theorem mcached_reconciles_misses {D V : Type} (msParse : String → Int) (ns : Option String)
    (serialize : V → String → String) (deserialize : String → String → V)
    (backend : String → Option String) (data : List D)
    (makeKey : D → Nat → String) (producer : List D → List V)
    (ttl : TtlExpression (V × Nat))
    (hmiss : ∃ i d, data.get? i = some d ∧ backend (getCacheKey ns (makeKey d i)) = none)
    (harity : (producer (missingOf (mcachedCells ns backend makeKey data))).length
        = (missingOf (mcachedCells ns backend makeKey data)).length) :
    (Cache.mcached msParse ns serialize deserialize backend data makeKey producer ttl).producerCalls
      = [missingOf (mcachedCells ns backend makeKey data)] ∧
    (missingOf (mcachedCells ns backend makeKey data)).length
      = (mcachedCells ns backend makeKey data).countP (fun c => c.2.2.isNone) ∧
    (∀ i d, data.get? i = some d → backend (getCacheKey ns (makeKey d i)) = none →
      (missingOf (mcachedCells ns backend makeKey data)).get?
          (missCountBefore (mcachedCells ns backend makeKey data) i) = some d) ∧
    ∃ out,
      (Cache.mcached msParse ns serialize deserialize backend data makeKey producer ttl).result
        = .ok out ∧
      out.length = data.length ∧
      (∀ i d, data.get? i = some d →
        (∀ s, backend (getCacheKey ns (makeKey d i)) = some s →
          out.get? i = some (deserialize s (makeKey d i))) ∧
        (backend (getCacheKey ns (makeKey d i)) = none →
          out.get? i = (producer (missingOf (mcachedCells ns backend makeKey data))).get?
            (missCountBefore (mcachedCells ns backend makeKey data) i))) := by
  obtain ⟨i0, d0, hd0, hm0⟩ := hmiss
  have hc0 : (mcachedCells ns backend makeKey data).get? i0
      = some (d0, makeKey d0 i0, none) := by
    rw [mcachedCells_get?, hd0]
    simp [hm0]
  have hne : missingOf (mcachedCells ns backend makeKey data) ≠ [] := by
    intro hnil
    have hx := missingOf_get? (mcachedCells ns backend makeKey data) i0 d0 (makeKey d0 i0) hc0
    rw [hnil] at hx
    simp at hx
  have hlen : (producer (missingOf (mcachedCells ns backend makeKey data))).length
      = (mcachedCells ns backend makeKey data).countP (fun c => c.2.2.isNone) :=
    harity.trans (missingOf_length _)
  refine ⟨?_, missingOf_length _, ?_, ?_⟩
  · unfold Cache.mcached
    dsimp only
    rw [if_neg (by simp [List.isEmpty_iff, hne]), if_neg (fun hc => hc harity)]
  · intro i d hd hm
    exact missingOf_get? _ i d (makeKey d i) (by rw [mcachedCells_get?, hd]; simp [hm])
  · refine ⟨scatterOf deserialize (mcachedCells ns backend makeKey data)
        (producer (missingOf (mcachedCells ns backend makeKey data))), ?_, ?_, ?_⟩
    · unfold Cache.mcached
      dsimp only
      rw [if_neg (by simp [List.isEmpty_iff, hne]), if_neg (fun hc => hc harity)]
    · rw [scatterOf_length _ _ _ hlen, mcachedCells_length]
    · intro i d hd
      constructor
      · intro s hs
        exact scatterOf_get?_hit _ _ _ i d (makeKey d i) s hlen
          (by rw [mcachedCells_get?, hd]; simp [hs])
      · intro hm
        exact scatterOf_get?_miss _ _ _ i d (makeKey d i) hlen
          (by rw [mcachedCells_get?, hd]; simp [hm])

theorem mcachedCells_all_hits {D : Type} (ns : Option String)
    (backend : String → Option String) (makeKey : D → Nat → String) (data : List D)
    (hhit : ∀ i d, data.get? i = some d →
      (backend (getCacheKey ns (makeKey d i))).isSome = true) :
    ∀ c ∈ mcachedCells ns backend makeKey data, c.2.2.isSome = true := by
  intro c hc
  obtain ⟨n, hn⟩ := List.get?_of_mem hc
  rw [mcachedCells_get?] at hn
  cases hd : data.get? n with
  | none => rw [hd] at hn; simp at hn
  | some d =>
      rw [hd] at hn
      simp only [Option.map_some'] at hn
      obtain rfl := Option.some.inj hn
      exact hhit n d hd

/-- C2: when the producer of an `mcached` call with at least one miss
returns a list whose length differs from the number of missing items, the
call fails with the descriptive arity error, and the only adapter call of
the run is the initial batched get — no `mset` (no write of any kind) is
issued, so the backend state is unchanged by the failed call. -/
theorem mcached_arity_mismatch {D V : Type} (msParse : String → Int) (ns : Option String)
    (serialize : V → String → String) (deserialize : String → String → V)
    (backend : String → Option String) (data : List D)
    (makeKey : D → Nat → String) (producer : List D → List V)
    (ttl : TtlExpression (V × Nat))
    (hmiss : ∃ i d, data.get? i = some d ∧ backend (getCacheKey ns (makeKey d i)) = none)
    (hlen : (producer (missingOf (mcachedCells ns backend makeKey data))).length
        ≠ (missingOf (mcachedCells ns backend makeKey data)).length) :
    (Cache.mcached msParse ns serialize deserialize backend data makeKey producer ttl).result
      = .error "The producer did not return exactly as many results as inputs were given." ∧
    (Cache.mcached msParse ns serialize deserialize backend data makeKey producer ttl).adapterCalls
      = [.mget ((mcachedCells ns backend makeKey data).map fun c => getCacheKey ns c.2.1)] ∧
    ∀ entries, AdapterCall.mset entries ∉
      (Cache.mcached msParse ns serialize deserialize backend data makeKey producer
        ttl).adapterCalls := by
  obtain ⟨i0, d0, hd0, hm0⟩ := hmiss
  have hc0 : (mcachedCells ns backend makeKey data).get? i0
      = some (d0, makeKey d0 i0, none) := by
    rw [mcachedCells_get?, hd0]
    simp [hm0]
  have hne : missingOf (mcachedCells ns backend makeKey data) ≠ [] := by
    intro hnil
    have hx := missingOf_get? (mcachedCells ns backend makeKey data) i0 d0 (makeKey d0 i0) hc0
    rw [hnil] at hx
    simp at hx
  have hrw : Cache.mcached msParse ns serialize deserialize backend data makeKey producer ttl
      = { result := .error
            "The producer did not return exactly as many results as inputs were given."
          adapterCalls :=
            [.mget ((mcachedCells ns backend makeKey data).map fun c => getCacheKey ns c.2.1)]
          producerCalls := [missingOf (mcachedCells ns backend makeKey data)]
          events := eventsOf (mcachedCells ns backend makeKey data) } := by
    unfold Cache.mcached
    dsimp only
    rw [if_neg (by simp [List.isEmpty_iff, hne]), if_pos hlen]
  rw [hrw]
  refine ⟨rfl, rfl, ?_⟩
  intro entries
  simp

/-- C3: when every requested key of an `mcached` call is already cached,
the call returns the deserialized cached values, never invokes the
producer, and its only adapter call is the batched get — no write is
issued, so the backend state is exactly the same after the call. -/
theorem mcached_no_misses {D V : Type} (msParse : String → Int) (ns : Option String)
    (serialize : V → String → String) (deserialize : String → String → V)
    (backend : String → Option String) (data : List D)
    (makeKey : D → Nat → String) (producer : List D → List V)
    (ttl : TtlExpression (V × Nat))
    (hhit : ∀ i d, data.get? i = some d →
      (backend (getCacheKey ns (makeKey d i))).isSome = true) :
    (Cache.mcached msParse ns serialize deserialize backend data makeKey producer
        ttl).producerCalls = [] ∧
    (Cache.mcached msParse ns serialize deserialize backend data makeKey producer
        ttl).adapterCalls
      = [.mget ((mcachedCells ns backend makeKey data).map fun c => getCacheKey ns c.2.1)] ∧
    ∃ out,
      (Cache.mcached msParse ns serialize deserialize backend data makeKey producer
        ttl).result = .ok out ∧
      out.length = data.length ∧
      (∀ i d s, data.get? i = some d → backend (getCacheKey ns (makeKey d i)) = some s →
        out.get? i = some (deserialize s (makeKey d i))) := by
  have hall := mcachedCells_all_hits ns backend makeKey data hhit
  have hmnil : missingOf (mcachedCells ns backend makeKey data) = [] :=
    missingOf_eq_nil _ hall
  have hcount : (mcachedCells ns backend makeKey data).countP (fun c => c.2.2.isNone) = 0 :=
    countP_isNone_eq_zero _ hall
  have hrw : Cache.mcached msParse ns serialize deserialize backend data makeKey producer ttl
      = { result := .ok (scatterOf deserialize (mcachedCells ns backend makeKey data) [])
          adapterCalls :=
            [.mget ((mcachedCells ns backend makeKey data).map fun c => getCacheKey ns c.2.1)]
          producerCalls := []
          events := eventsOf (mcachedCells ns backend makeKey data) } := by
    unfold Cache.mcached
    dsimp only
    rw [if_pos (by simp [List.isEmpty_iff, hmnil])]
  rw [hrw]
  refine ⟨rfl, rfl, scatterOf deserialize (mcachedCells ns backend makeKey data) [], rfl,
    ?_, ?_⟩
  · rw [scatterOf_length _ _ _ (by simp [hcount]), mcachedCells_length]
  · intro i d s hd hs
    exact scatterOf_get?_hit _ _ _ i d (makeKey d i) s (by simp [hcount])
      (by rw [mcachedCells_get?, hd]; simp [hs])

/-- C9: `mget([])` returns the empty list, makes zero calls to the adapter,
and emits zero hit/miss signals. -/
theorem mget_empty {V : Type} (ns : Option String) (deserialize : String → String → V)
    (backend : String → Option String) :
    Cache.mget ns deserialize backend []
      = { result := ([] : List (Option V)), adapterCalls := [], events := [] } := rfl

/-- C10: `mcached` on the empty data list returns the empty list, never
invokes the batch producer, emits no hit/miss signals and issues no write —
but does not short-circuit: it still issues exactly one batched adapter get
call, with an empty key list. -/
theorem mcached_empty {D V : Type} (msParse : String → Int) (ns : Option String)
    (serialize : V → String → String) (deserialize : String → String → V)
    (makeKey : D → Nat → String) (producer : List D → List V)
    (backend : String → Option String) (ttl : TtlExpression (V × Nat)) :
    Cache.mcached msParse ns serialize deserialize backend [] makeKey producer ttl
      = { result := .ok [], adapterCalls := [.mget []], producerCalls := [], events := [] } := rfl

/-- C8: for every key, JSON-representable value and TTL expression,
`set(key, value, ttl)` followed by `get(key)` on the same orchestrator,
over a backend that retains the entry, with the default JSON serializer and
deserializer, returns a value deep-equal (structurally equal) to the one
stored. -/
theorem set_then_get_default (msParse : String → Int) (ns : Option String)
    (backend : String → Option String) (key : String) (value : Json)
    (ttl : TtlExpression Json) :
    (Cache.get ns defaultDeserialize
        (applySet (Cache.set msParse ns defaultSerialize key value ttl) backend) key).result
      = some value := by
  unfold Cache.get Cache.set applySet
  dsimp only
  rw [if_pos rfl]
  unfold defaultDeserialize defaultSerialize
  dsimp only
  rw [jsonParse_stringify]
  rfl

/-- C4 counterexample: with a backup saver configured, `pdel("*")` clears
the cache but requests no backup save — it returns before the
`void this.saveBackup()` call — refuting the claim that every mutating
operation, including `pdel` with pattern `"*"`, triggers a save. -/
theorem pdel_star_skips_save :
    (MemoryCacheAdapter.pdel true (fun _ _ => []) ["a"] "*").saveRequested = false := rfl

/-- C4 (amended): with a backup saver configured, the mutating operations
`mset`, `mdel`, and `pdel` with any pattern other than `"*"` each trigger
the fire-and-forget backup save request, while `pdel` with the pattern
`"*"` clears the cache without triggering a save. -/
theorem memory_mutations_trigger_save
    (entries : List (String × String × Int)) (keys engineKeys : List String)
    (micromatch : List String → String → List String) (pattern : String)
    (hp : pattern ≠ "*") :
    (MemoryCacheAdapter.mset true entries).saveRequested = true ∧
    (MemoryCacheAdapter.mdel true keys).saveRequested = true ∧
    (MemoryCacheAdapter.pdel true micromatch engineKeys pattern).saveRequested = true ∧
    (MemoryCacheAdapter.pdel true micromatch engineKeys "*").saveRequested = false := by
  refine ⟨rfl, rfl, ?_, rfl⟩
  unfold MemoryCacheAdapter.pdel
  rw [if_neg hp]

/-- C5: when a second `saveCacheBackup` call starts while the first call's
file write is still in flight, the second call is skipped (it performs no
file write and changes no state), and after both calls resolve the backup
file's content is the JSON serialization of the first call's snapshot —
the second snapshot is dropped, not queued or merged. -/
theorem save_coalescing (s0 : SaverState) (a b : List (String × String × Int)) (okB : Bool)
    (h0 : s0.saving = false) :
    (saveCacheBackupBegin s0 a).2 = .writing (stringifyBackup a) ∧
    (saveCacheBackupBegin (saveCacheBackupBegin s0 a).1 b).2 = .skipped ∧
    (saveCacheBackupBegin (saveCacheBackupBegin s0 a).1 b).1 = (saveCacheBackupBegin s0 a).1 ∧
    (saveCacheBackupFinish
        (saveCacheBackupFinish (saveCacheBackupBegin (saveCacheBackupBegin s0 a).1 b).1
          (saveCacheBackupBegin s0 a).2 true)
        (saveCacheBackupBegin (saveCacheBackupBegin s0 a).1 b).2 okB).file
      = some (stringifyBackup a) ∧
    (saveCacheBackupFinish
        (saveCacheBackupFinish (saveCacheBackupBegin (saveCacheBackupBegin s0 a).1 b).1
          (saveCacheBackupBegin s0 a).2 true)
        (saveCacheBackupBegin (saveCacheBackupBegin s0 a).1 b).2 okB).saving = false := by
  simp [saveCacheBackupBegin, saveCacheBackupFinish, h0]

/-- C6: a `saveCacheBackup` call that begins a write (the `saving` flag was
clear) leaves the flag clear again after it completes on every exit path —
also when the underlying file write throws — so a failed save never
permanently blocks subsequent saves. -/
theorem save_flag_cleared (s0 : SaverState) (backup : List (String × String × Int))
    (ok : Bool) (h0 : s0.saving = false) :
    (saveCacheBackupFinish (saveCacheBackupBegin s0 backup).1
      (saveCacheBackupBegin s0 backup).2 ok).saving = false := by
  simp [saveCacheBackupBegin, saveCacheBackupFinish, h0]

/-- C7: a backup-restore insertion `set k v t` happens iff the snapshot has
an entry `(k, v, expireAtMs)` with `expireAtMs` strictly in the future and
`t = expireAtMs - now`: entries whose `expireAtMs` is not strictly greater
than the current time are never inserted into the reconstituted cache, and
future entries are inserted with TTL `expireAtMs - now`. -/
theorem importCacheFromBackup_mem (now : Int) (backup : List (String × String × Int))
    (k v : String) (t : Int) :
    EngineOp.set k v t ∈ importCacheFromBackup now backup ↔
      ∃ e, (k, v, e) ∈ backup ∧ now < e ∧ t = e - now := by
  unfold importCacheFromBackup
  rw [List.mem_filterMap]
  constructor
  · rintro ⟨⟨k', v', e⟩, hmem, hf⟩
    dsimp only at hf
    split at hf
    · next hgt =>
        obtain ⟨rfl, rfl, rfl⟩ : k' = k ∧ v' = v ∧ e - now = t := by
          have hinj := Option.some.inj hf
          injection hinj with h1 h2 h3
          exact ⟨h1, h2, h3⟩
        exact ⟨e, hmem, hgt, rfl⟩
    · exact absurd hf (by simp)
  · rintro ⟨e, hmem, hlt, rfl⟩
    exact ⟨(k, v, e), hmem, by simp [hlt]⟩

theorem mcached_reconciles_misses_witness :
    (∃ i d, (["a", "b"] : List String).get? i = some d ∧
      exBackend (getCacheKey none (exMakeKey d i)) = none) ∧
    ((exProducer (missingOf (mcachedCells none exBackend exMakeKey ["a", "b"]))).length
      = (missingOf (mcachedCells none exBackend exMakeKey ["a", "b"])).length) ∧
    ((Cache.mcached exMs none exSer exDeser exBackend ["a", "b"] exMakeKey exProducer
        (.lit 5)).producerCalls
      = [missingOf (mcachedCells none exBackend exMakeKey ["a", "b"])] ∧
    (missingOf (mcachedCells none exBackend exMakeKey ["a", "b"])).length
      = (mcachedCells none exBackend exMakeKey ["a", "b"]).countP (fun c => c.2.2.isNone) ∧
    (∀ i d, (["a", "b"] : List String).get? i = some d →
        exBackend (getCacheKey none (exMakeKey d i)) = none →
      (missingOf (mcachedCells none exBackend exMakeKey ["a", "b"])).get?
          (missCountBefore (mcachedCells none exBackend exMakeKey ["a", "b"]) i) = some d) ∧
    ∃ out,
      (Cache.mcached exMs none exSer exDeser exBackend ["a", "b"] exMakeKey exProducer
        (.lit 5)).result = .ok out ∧
      out.length = (["a", "b"] : List String).length ∧
      (∀ i d, (["a", "b"] : List String).get? i = some d →
        (∀ s, exBackend (getCacheKey none (exMakeKey d i)) = some s →
          out.get? i = some (exDeser s (exMakeKey d i))) ∧
        (exBackend (getCacheKey none (exMakeKey d i)) = none →
          out.get? i = (exProducer (missingOf (mcachedCells none exBackend exMakeKey
              ["a", "b"]))).get?
            (missCountBefore (mcachedCells none exBackend exMakeKey ["a", "b"]) i)))) :=
  have h1 : ∃ i d, (["a", "b"] : List String).get? i = some d ∧
      exBackend (getCacheKey none (exMakeKey d i)) = none := ⟨0, "a", by decide, by decide⟩
  have h2 : (exProducer (missingOf (mcachedCells none exBackend exMakeKey ["a", "b"]))).length
      = (missingOf (mcachedCells none exBackend exMakeKey ["a", "b"])).length := by decide
  ⟨h1, h2, mcached_reconciles_misses exMs none exSer exDeser exBackend ["a", "b"] exMakeKey
    exProducer (.lit 5) h1 h2⟩

theorem mcached_arity_mismatch_witness :
    (∃ i d, (["a", "b"] : List String).get? i = some d ∧
      exBackend (getCacheKey none (exMakeKey d i)) = none) ∧
    ((exBadProducer (missingOf (mcachedCells none exBackend exMakeKey ["a", "b"]))).length
      ≠ (missingOf (mcachedCells none exBackend exMakeKey ["a", "b"])).length) ∧
    ((Cache.mcached exMs none exSer exDeser exBackend ["a", "b"] exMakeKey exBadProducer
        (.lit 5)).result
      = .error "The producer did not return exactly as many results as inputs were given." ∧
    (Cache.mcached exMs none exSer exDeser exBackend ["a", "b"] exMakeKey exBadProducer
        (.lit 5)).adapterCalls
      = [.mget ((mcachedCells none exBackend exMakeKey ["a", "b"]).map
          fun c => getCacheKey none c.2.1)] ∧
    ∀ entries, AdapterCall.mset entries ∉
      (Cache.mcached exMs none exSer exDeser exBackend ["a", "b"] exMakeKey exBadProducer
        (.lit 5)).adapterCalls) :=
  have h1 : ∃ i d, (["a", "b"] : List String).get? i = some d ∧
      exBackend (getCacheKey none (exMakeKey d i)) = none := ⟨0, "a", by decide, by decide⟩
  have h2 : (exBadProducer (missingOf (mcachedCells none exBackend exMakeKey
        ["a", "b"]))).length
      ≠ (missingOf (mcachedCells none exBackend exMakeKey ["a", "b"])).length := by decide
  ⟨h1, h2, mcached_arity_mismatch exMs none exSer exDeser exBackend ["a", "b"] exMakeKey
    exBadProducer (.lit 5) h1 h2⟩

theorem mcached_no_misses_witness :
    (∀ i d, (["b"] : List String).get? i = some d →
      (exBackend (getCacheKey none (exMakeKey d i))).isSome = true) ∧
    ((Cache.mcached exMs none exSer exDeser exBackend ["b"] exMakeKey exProducer
        (.lit 5)).producerCalls = [] ∧
    (Cache.mcached exMs none exSer exDeser exBackend ["b"] exMakeKey exProducer
        (.lit 5)).adapterCalls
      = [.mget ((mcachedCells none exBackend exMakeKey ["b"]).map
          fun c => getCacheKey none c.2.1)] ∧
    ∃ out,
      (Cache.mcached exMs none exSer exDeser exBackend ["b"] exMakeKey exProducer
        (.lit 5)).result = .ok out ∧
      out.length = (["b"] : List String).length ∧
      (∀ i d s, (["b"] : List String).get? i = some d →
        exBackend (getCacheKey none (exMakeKey d i)) = some s →
        out.get? i = some (exDeser s (exMakeKey d i)))) :=
  have h1 : ∀ i d, (["b"] : List String).get? i = some d →
      (exBackend (getCacheKey none (exMakeKey d i))).isSome = true := by
    intro i d hd
    cases i with
    | zero =>
        simp only [List.get?_cons_zero, Option.some.injEq] at hd
        subst hd
        decide
    | succ n => simp at hd
  ⟨h1, mcached_no_misses exMs none exSer exDeser exBackend ["b"] exMakeKey exProducer
    (.lit 5) h1⟩

theorem memory_mutations_trigger_save_witness :
    ("foo-*" : String) ≠ "*" ∧
    ((MemoryCacheAdapter.mset true []).saveRequested = true ∧
    (MemoryCacheAdapter.mdel true []).saveRequested = true ∧
    (MemoryCacheAdapter.pdel true (fun _ _ => []) [] "foo-*").saveRequested = true ∧
    (MemoryCacheAdapter.pdel true (fun _ _ => []) [] "*").saveRequested = false) :=
  ⟨by decide, memory_mutations_trigger_save [] [] [] (fun _ _ => []) "foo-*" (by decide)⟩

theorem save_coalescing_witness :
    (SaverState.mk false none).saving = false ∧
    ((saveCacheBackupBegin ⟨false, none⟩ [("k", "v", 5)]).2
      = .writing (stringifyBackup [("k", "v", 5)]) ∧
    (saveCacheBackupBegin (saveCacheBackupBegin ⟨false, none⟩ [("k", "v", 5)]).1 []).2
      = .skipped ∧
    (saveCacheBackupBegin (saveCacheBackupBegin ⟨false, none⟩ [("k", "v", 5)]).1 []).1
      = (saveCacheBackupBegin ⟨false, none⟩ [("k", "v", 5)]).1 ∧
    (saveCacheBackupFinish
        (saveCacheBackupFinish
          (saveCacheBackupBegin (saveCacheBackupBegin ⟨false, none⟩ [("k", "v", 5)]).1 []).1
          (saveCacheBackupBegin ⟨false, none⟩ [("k", "v", 5)]).2 true)
        (saveCacheBackupBegin (saveCacheBackupBegin ⟨false, none⟩ [("k", "v", 5)]).1 []).2
        false).file
      = some (stringifyBackup [("k", "v", 5)]) ∧
    (saveCacheBackupFinish
        (saveCacheBackupFinish
          (saveCacheBackupBegin (saveCacheBackupBegin ⟨false, none⟩ [("k", "v", 5)]).1 []).1
          (saveCacheBackupBegin ⟨false, none⟩ [("k", "v", 5)]).2 true)
        (saveCacheBackupBegin (saveCacheBackupBegin ⟨false, none⟩ [("k", "v", 5)]).1 []).2
        false).saving = false) :=
  ⟨rfl, save_coalescing ⟨false, none⟩ [("k", "v", 5)] [] false rfl⟩

theorem save_flag_cleared_witness :
    (SaverState.mk false none).saving = false ∧
    (saveCacheBackupFinish (saveCacheBackupBegin ⟨false, none⟩ []).1
      (saveCacheBackupBegin ⟨false, none⟩ []).2 false).saving = false :=
  ⟨rfl, save_flag_cleared ⟨false, none⟩ [] false rfl⟩

end TsCache
